import Mathlib

/-!
Verification of the stateful computation-and-persistence engine of the
3DLAB server (server.py): the parameter/member data model, the
ratio/grams/value allocation formula, id allocation, and the member
management operations (add, upsert-by-name, update, delete, clear).

Numbers are modelled with exact rationals (the source uses Python floats;
all concrete values appearing below are exactly representable). Python
dict slots that may hold arbitrary JSON values (the four parameters) are
modelled by the inductive PyVal; a coercion that would raise in Python is
modelled by an Option-valued function returning none.
-/

namespace Server

/-- A Python/JSON value that can sit in a parameter slot of the state
dict: a (finite) number, a string, or null. A parameter slot that is
absent from the dict is modelled by Option.none around PyVal. -/
inductive PyVal where
  | num (q : ℚ)
  | str (s : String)
  | null
  deriving DecidableEq, Repr

/-- A member record as persisted in state.json: server.py always stores
an integer id, a string name and a float hours for members it creates. -/
structure Member where
  id : Int
  name : String
  hours : ℚ
  deriving DecidableEq, Repr

/-- The persisted state document: the four parameters (arbitrary JSON
values, since POST /api/state stores them unvalidated), the nextId
counter (an integer when present; none models absent or null), and the
ordered member list. -/
structure State where
  S : Option PyVal
  p : Option PyVal
  c : Option PyVal
  H : Option PyVal
  nextId : Option Int
  members : List Member
  deriving DecidableEq, Repr

/-- Digit string to natural number; none when empty or a non-digit occurs. -/
def digitsVal? (cs : List Char) : Option Nat :=
  if cs.isEmpty then none
  else cs.foldlM (fun acc ch => if ch.isDigit then some (acc * 10 + (ch.toNat - 48)) else none) 0

/-- Unsigned decimal literal (digits, optionally with one decimal point;
at least one digit overall), as accepted by Python float(). -/
def parseUnsigned? (cs : List Char) : Option ℚ :=
  let intPart := cs.takeWhile (fun ch => ch ≠ '.')
  match cs.dropWhile (fun ch => ch ≠ '.') with
  | [] => (digitsVal? intPart).map (fun n => (n : ℚ))
  | _ :: frac =>
      if frac.contains '.' then none
      else if intPart.isEmpty && frac.isEmpty then none
      else
        match (if intPart.isEmpty then some 0 else digitsVal? intPart),
              (if frac.isEmpty then some 0 else digitsVal? frac) with
        | some ip, some fp => some ((ip : ℚ) + (fp : ℚ) / ((10 : ℚ) ^ frac.length))
        | _, _ => none

/-- Python str.strip(): drop leading and trailing whitespace. -/
def pyStrip (s : String) : String :=
  ⟨List.reverse ((List.reverse (s.toList.dropWhile Char.isWhitespace)).dropWhile Char.isWhitespace)⟩

/-- Python float() applied to a string: strips surrounding whitespace,
optional sign, then a decimal literal; none models the ValueError raised
on anything else. (Restricted to finite plain decimals: exponent forms
and inf/nan literals are outside the rational model.) -/
def pyStrToFloat? (s : String) : Option ℚ :=
  match (pyStrip s).toList with
  | '-' :: rest => (parseUnsigned? rest).map (fun q => -q)
  | '+' :: rest => parseUnsigned? rest
  | cs => parseUnsigned? cs

/-- Python float(v) on a stored value: numbers pass through, strings are
parsed, float(None) raises (none). -/
def pyFloat? : PyVal → Option ℚ
  | .num q => some q
  | .str s => pyStrToFloat? s
  | .null => none

/-- Python truthiness of a stored value (used by the `or` defaults in
_compute_response): 0, the empty string and null are falsy. -/
def falsy : PyVal → Bool
  | .num q => q = 0
  | .str s => s = ""
  | .null => true

/-- float(state.get(k, d) or d): a missing or falsy slot yields the
default d; otherwise the stored value is coerced by float(), which can
fail (none). In server.py the dict default and the `or` default coincide
for each parameter. -/
def coerceParam (v : Option PyVal) (d : ℚ) : Option ℚ :=
  match v with
  | none => some d
  | some x => if falsy x then some d else pyFloat? x

/-- One member entry of the computed response (grams g and value v). -/
structure RMember where
  id : Int
  name : String
  hours : ℚ
  g : Int
  v : Int
  deriving DecidableEq, Repr

/-- The response of _compute_response: coerced parameters, the ceiled
ratio R, and the annotated member list. -/
structure Response where
  S : ℚ
  p : ℚ
  c : ℚ
  H : ℚ
  R : Int
  members : List RMember
  deriving DecidableEq, Repr

/-- _compute_response (server.py lines 104-132). Coerces S (default 0),
p (default 0), c (default 1/1000000, the near-zero floor applied to any
falsy c), H (default 1); any failing coercion models the ValueError the
Python code raises (none). Then r = (S*p)/(c*H) guarded by Python
truthiness of c*H, R = ceil(r), and per member g = ceil(hours*R),
v = ceil(g*c) with the same coerced c throughout. Member hours are
modelled as rationals (the registry only ever stores validated floats),
so float(m.get("hours", 0) or 0) is the stored value itself. -/
def computeResponse (st : State) : Option Response :=
  match coerceParam st.S 0, coerceParam st.p 0,
        coerceParam st.c (1/1000000), coerceParam st.H 1 with
  | some S, some p, some c, some H =>
      let r : ℚ := if c * H ≠ 0 then S * p / (c * H) else 0
      let rCeil : Int := ⌈r⌉
      some { S := S, p := p, c := c, H := H, R := rCeil,
             members := st.members.map (fun m =>
               let g : Int := ⌈m.hours * (rCeil : ℚ)⌉
               { id := m.id, name := m.name, hours := m.hours,
                 g := g, v := ⌈(g : ℚ) * c⌉ }) }
  | _, _, _, _ => none

/-- _default_state (server.py lines 21-33). -/
def defaultState : State :=
  { S := some (.num 600), p := some (.num (1/2)), c := some (.num (9/200)),
    H := some (.num 150), nextId := some 4,
    members := [⟨1, "张三", 5⟩, ⟨2, "李四", 8⟩, ⟨3, "王五", 10⟩] }

/-- The hours field of a request body after Python float() coercion:
not convertible at all (float raises), convertible but non-finite
(nan/inf), or a finite number. -/
inductive HoursVal where
  | notConvertible
  | nonFinite
  | finite (q : ℚ)
  deriving DecidableEq, Repr

/-- The shared hours validation of POST /api/members (lines 188-196),
POST /api/submit_and_add (lines 217-225) and PUT /api/members/{id}
(lines 291-299), which are textually identical in server.py: a failed
float() conversion is an error (none); then non-finite or negative
becomes 0, and anything above 1e7 becomes 1e7. -/
def clampHours (h : HoursVal) : Option ℚ :=
  match h with
  | .notConvertible => none
  | .nonFinite => some 0
  | .finite q =>
      let q1 := if q < 0 then 0 else q
      some (if q1 > 10000000 then 10000000 else q1)

/-- Name cleaning shared by the endpoints: strip whitespace, truncate to
100 characters. -/
def cleanName (s : String) : String := ⟨(pyStrip s).toList.take 100⟩

/-- The max-id scan of _ensure_next_id (lines 63-71): the largest member
id, at least 0. -/
def maxMemberId (ms : List Member) : Int :=
  ms.foldl (fun acc m => max acc m.id) 0

/-- _ensure_next_id (server.py lines 61-76): reads the stored counter
(absent or zero falls back to max_id + 1, matching the dict default and
the `or`), corrects it upward when it is not above the current maximum
member id, stores the incremented counter, and returns the issued id. -/
def ensureNextId (s : State) : Int × State :=
  let maxId := maxMemberId s.members
  let stored : Int :=
    match s.nextId with
    | none => maxId + 1
    | some v => if v = 0 then maxId + 1 else v
  let issued := if stored ≤ maxId then maxId + 1 else stored
  (issued, { s with nextId := some (issued + 1) })

/-- The member-append path of POST /api/members (lines 198-209), after
validation: allocate an id, substitute the placeholder name for an empty
name, append. Returns the new state and the issued id. -/
def addMember (s : State) (name : String) (hours : ℚ) : State × Int :=
  let r := ensureNextId s
  let nm := if name = "" then "成员" ++ toString r.1 else name
  ({ r.2 with members := r.2.members ++ [⟨r.1, nm, hours⟩] }, r.1)

/-- API error outcomes surfaced by the endpoints. -/
inductive ApiErr where
  | badRequest
  | notFound
  deriving DecidableEq, Repr

/-- POST /api/members (lines 182-210): validate hours (400 on a failed
conversion), then append via addMember with the cleaned name. -/
def membersPost (s : State) (raw : String) (hv : HoursVal) : Except ApiErr (State × Int) :=
  match clampHours hv with
  | none => .error .badRequest
  | some q => .ok (addMember s (cleanName raw) q)

/-- The search-and-overwrite loop of POST /api/submit_and_add (lines
230-238): find the first member whose stripped stored name equals the
(already cleaned, nonempty) request name; overwrite only its hours and
report its id. none when no member matches (including whenever the
request name is empty, because of the `and name` conjunct). -/
def upsertHours : List Member → String → ℚ → Option (List Member × Int)
  | [], _, _ => none
  | m :: rest, name, hours =>
      if pyStrip m.name = name ∧ name ≠ "" then some ({ m with hours := hours } :: rest, m.id)
      else
        match upsertHours rest name hours with
        | some (rest', mid) => some (m :: rest', mid)
        | none => none

/-- The state mutation of POST /api/submit_and_add (lines 212-249):
validate hours, then overwrite the first name match in place, or fall
back to the same append as POST /api/members. Returns the saved state
and the touched member's id. -/
def submitAndAdd (s : State) (raw : String) (hv : HoursVal) : Except ApiErr (State × Int) :=
  match clampHours hv with
  | none => .error .badRequest
  | some q =>
      let name := cleanName raw
      match upsertHours s.members name q with
      | some (ms, mid) => .ok ({ s with members := ms }, mid)
      | none => .ok (addMember s name q)

/-- The member-update loop of do_PUT (lines 286-304): find the first
member with the given id; apply the name edit when present, then the
hours edit when present (a failed hours conversion aborts with 400,
before anything is saved); not finding the id is a 404. -/
def updateFirst : List Member → Int → Option String → Option HoursVal → Except ApiErr (List Member)
  | [], _, _, _ => .error .notFound
  | m :: rest, mid, name?, hours? =>
      if m.id = mid then
        let m1 := match name? with
                  | some n => { m with name := cleanName n }
                  | none => m
        match hours? with
        | some hv =>
            match clampHours hv with
            | none => .error .badRequest
            | some q => .ok ({ m1 with hours := q } :: rest)
        | none => .ok (m1 :: rest)
      else (updateFirst rest mid name? hours?).map (fun ms => m :: ms)

/-- PUT /api/members/{id} (lines 276-306) at the state level: an ok
result is the state that gets saved; an error result means nothing is
saved. -/
def membersPut (s : State) (mid : Int) (name? : Option String) (hours? : Option HoursVal) : Except ApiErr State :=
  match updateFirst s.members mid name? hours? with
  | .ok ms => .ok { s with members := ms }
  | .error e => .error e

/-- DELETE /api/members/{id} (lines 310-324): filter out the id; when
the length is unchanged it is a 404 and nothing is saved. -/
def deleteMember (s : State) (mid : Int) : Except ApiErr State :=
  let remaining := s.members.filter (fun m => m.id ≠ mid)
  if remaining.length = s.members.length then .error .notFound
  else .ok { s with members := remaining }

/-- POST /api/clear (lines 267-272): empty the member list, save. -/
def clearMembers (s : State) : State := { s with members := [] }

/-- The persisted document after a request: an error response leaves the
previously persisted state in place (the handlers return before
_save_state); an ok result is saved. -/
def persistAfter (s : State) (r : Except ApiErr State) : State :=
  match r with
  | .ok s' => s'
  | .error _ => s

/-- The condition of the persisted file as _load_state finds it. -/
inductive Persisted where
  | absent
  | unparsable
  | valid (s : State)
  deriving DecidableEq, Repr

/-- _load_state (server.py lines 36-49): an absent file and a parse
failure both synthesize the default state, save it, and return it; a
valid file is returned as is (and left untouched). The function is total:
no branch raises to the caller. Result: (returned state, file after). -/
def loadState : Persisted → State × Persisted
  | .absent => (defaultState, .valid defaultState)
  | .unparsable => (defaultState, .valid defaultState)
  | .valid s => (s, .valid s)

/-- Contents a file slot can hold: a fully written, parsable state, or
the partial data of an interrupted write. -/
inductive FileContent where
  | valid (s : State)
  | partialData
  deriving DecidableEq, Repr

/-- The two file slots _save_state touches: the canonical state.json and
the state.json.tmp scratch file. -/
structure FS where
  canonical : Option FileContent
  tmp : Option FileContent
  deriving DecidableEq, Repr

/-- The filesystem states observable during _save_state (lines 52-58),
in order: before the call, with the temp file partially written, with
the temp file fully written, and after os.replace atomically moves the
temp file onto the canonical path. A crash or a concurrent read can land
on any element of this trace; only the final step touches the canonical
slot. -/
def saveTrace (doc : State) (fs : FS) : List FS :=
  [ fs,
    { fs with tmp := some .partialData },
    { fs with tmp := some (.valid doc) },
    { canonical := some (.valid doc), tmp := none } ]

/-- The parameter merge of POST /api/state (lines 176-178): each of the
four keys present in the body overwrites the stored slot verbatim, with
no validation. -/
def applyParamUpdate (s : State) (bS bp bc bH : Option PyVal) : State :=
  { s with
    S := match bS with | some v => some v | none => s.S,
    p := match bp with | some v => some v | none => s.p,
    c := match bc with | some v => some v | none => s.c,
    H := match bH with | some v => some v | none => s.H }

/-- POST /api/state (lines 172-180): merge the body into the state, save,
then compute the response. The save happens before the compute, so the
merged state persists even when the compute raises (response none). -/
def postStateHandler (s : State) (bS bp bc bH : Option PyVal) : State × Option Response :=
  let s' := applyParamUpdate s bS bp bc bH
  (s', computeResponse s')

/-- One member-registry request, carrying the raw body fields. -/
inductive Op where
  | add (raw : String) (hv : HoursVal)
  | upsert (raw : String) (hv : HoursVal)
  | update (mid : Int) (name? : Option String) (hours? : Option HoursVal)
  | delete (mid : Int)
  | clear

/-- The persisted state after one request, together with the list of ids
issued by it (one for an add or an inserting upsert, none otherwise).
Branches mirror membersPost / submitAndAdd / membersPut / deleteMember /
clearMembers; a request that errors persists nothing. -/
def applyOp (s : State) : Op → State × List Int
  | .add raw hv =>
      match membersPost s raw hv with
      | .ok r => (r.1, [r.2])
      | .error _ => (s, [])
  | .upsert raw hv =>
      match clampHours hv with
      | none => (s, [])
      | some q =>
          let name := cleanName raw
          match upsertHours s.members name q with
          | some (ms, _) => ({ s with members := ms }, [])
          | none =>
              let r := addMember s name q
              (r.1, [r.2])
  | .update mid name? hours? => (persistAfter s (membersPut s mid name? hours?), [])
  | .delete mid => (persistAfter s (deleteMember s mid), [])
  | .clear => (clearMembers s, [])

/-- Run a request sequence from a starting document. Returns the final
persisted state and the trail of issued ids, each tagged with the
maximum member id present just before the issuing request ran. -/
def runOps : State → List Op → State × List (Int × Int)
  | s, [] => (s, [])
  | s, op :: rest =>
      let r := applyOp s op
      let t := runOps r.1 rest
      (t.1, r.2.map (fun i => (i, maxMemberId s.members)) ++ t.2)

end Server

namespace Server

/-! Helper lemmas about the parameter coercion. -/

lemma coerce_num_zero (q : ℚ) : coerceParam (some (.num q)) 0 = some q := by
  rcases eq_or_ne q 0 with rfl | h
  · simp [coerceParam, falsy]
  · simp [coerceParam, falsy, pyFloat?, h]

lemma coerce_num_of_ne (q d : ℚ) (h : q ≠ 0) : coerceParam (some (.num q)) d = some q := by
  simp [coerceParam, falsy, pyFloat?, h]

lemma coerce_num_zero_val (d : ℚ) : coerceParam (some (.num 0)) d = some d := by
  simp [coerceParam, falsy]

/-- C1: for every document with numeric parameters (c and H nonzero, so
the formula's denominator is meaningful), computeResponse returns
R = ceil((S*p)/(c*H)) and, for each member, g = ceil(hours*R) and
v = ceil(g*c), each ceiling applied independently at its own step. -/
theorem compute_formula (S p c H : ℚ) (nid : Option Int) (ms : List Member)
    (hc : c ≠ 0) (hH : H ≠ 0) :
    computeResponse ⟨some (.num S), some (.num p), some (.num c), some (.num H), nid, ms⟩
      = some { S := S, p := p, c := c, H := H,
               R := ⌈S * p / (c * H)⌉,
               members := ms.map (fun m =>
                 let g : Int := ⌈m.hours * ((⌈S * p / (c * H)⌉ : Int) : ℚ)⌉
                 { id := m.id, name := m.name, hours := m.hours,
                   g := g, v := ⌈(g : ℚ) * c⌉ }) } := by
  have hch : c * H ≠ 0 := mul_ne_zero hc hH
  simp [computeResponse, coerce_num_zero, coerce_num_of_ne _ _ hc, coerce_num_of_ne _ _ hH, hch]

/-- C1 witness: the spec example S=600, p=0.5, c=0.045, H=150 with a
member of 5 hours yields R=45, grams=225, value=11. -/
theorem compute_formula_witness :
    computeResponse { S := some (.num 600), p := some (.num (1/2)), c := some (.num (9/200)),
                      H := some (.num 150), nextId := some 4, members := [⟨1, "张三", 5⟩] }
      = some { S := 600, p := 1/2, c := 9/200, H := 150, R := 45,
               members := [⟨1, "张三", 5, 225, 11⟩] } := by
  rw [compute_formula 600 (1/2) (9/200) 150 (some 4) [⟨1, "张三", 5⟩]
        (by norm_num) (by norm_num)]
  have h1 : (⌈(600 * (1/2) / ((9:ℚ)/200 * 150))⌉ : Int) = 45 := by norm_num [Int.ceil_eq_iff]
  simp only [List.map_cons, List.map_nil, h1]
  norm_num [Int.ceil_eq_iff, Int.ceil_intCast]

end Server

namespace Server

/-- C2 counterexample: with stored c = 0 (and S=600, p=0.5, H=150, one
member with hours=1) the response's c field is the floor 1/1000000, not
the stored 0, and the member's value is 2, not ceil(grams*0) = 0. -/
theorem compute_c_asgiven_cex :
    (computeResponse { S := some (.num 600), p := some (.num (1/2)), c := some (.num 0),
                       H := some (.num 150), nextId := some 4,
                       members := [⟨1, "张三", 1⟩] }).map
        (fun r => (r.c, r.members.map (fun m => m.v)))
      = some ((1/1000000 : ℚ), [2])
    ∧ (1/1000000 : ℚ) ≠ 0 ∧ (2 : Int) ≠ 0 := by
  have h1 : (⌈(600 * (1/2) / ((1/1000000 : ℚ) * 150))⌉ : Int) = 2000000 := by
    norm_num [Int.ceil_eq_iff]
  have h2 : (⌈((1 : ℚ) * ((2000000 : Int) : ℚ))⌉ : Int) = 2000000 := by
    norm_num [Int.ceil_eq_iff]
  refine ⟨?_, by norm_num, by norm_num⟩
  norm_num [computeResponse, coerceParam, falsy, pyFloat?, h1, h2, Int.ceil_eq_iff]

/-- C2 amended: the near-zero floor for a falsy stored c is applied once,
at coercion time, and that floored c is used throughout computeResponse:
the ratio's denominator, each member's value = ceil(g * c_floor), and the
reported c field all use 1/1000000 when the stored c is 0. -/
theorem compute_c_floor (S p H : ℚ) (nid : Option Int) (ms : List Member) (hH : H ≠ 0) :
    computeResponse ⟨some (.num S), some (.num p), some (.num 0), some (.num H), nid, ms⟩
      = some { S := S, p := p, c := 1/1000000, H := H,
               R := ⌈S * p / ((1/1000000 : ℚ) * H)⌉,
               members := ms.map (fun m =>
                 let g : Int := ⌈m.hours * ((⌈S * p / ((1/1000000 : ℚ) * H)⌉ : Int) : ℚ)⌉
                 { id := m.id, name := m.name, hours := m.hours,
                   g := g, v := ⌈(g : ℚ) * (1/1000000 : ℚ)⌉ }) } := by
  have hch : (1/1000000 : ℚ) * H ≠ 0 := mul_ne_zero (by norm_num) hH
  simp [computeResponse, coerce_num_zero, coerce_num_zero_val, coerce_num_of_ne _ _ hH, hch, hH]

/-- C2 witness: the amended behaviour at c = 0, S = 600, p = 1/2,
H = 150, one member with one hour. -/
theorem compute_c_floor_witness :
    computeResponse { S := some (.num 600), p := some (.num (1/2)), c := some (.num 0),
                      H := some (.num 150), nextId := some 4, members := [⟨1, "张三", 1⟩] }
      = some { S := 600, p := 1/2, c := 1/1000000, H := 150, R := 2000000,
               members := [⟨1, "张三", 1, 2000000, 2⟩] } := by
  rw [compute_c_floor 600 (1/2) 150 (some 4) [⟨1, "张三", 1⟩] (by norm_num)]
  have h1 : (⌈(600 * (1/2) / ((1/1000000 : ℚ) * 150))⌉ : Int) = 2000000 := by
    norm_num [Int.ceil_eq_iff]
  simp only [List.map_cons, List.map_nil, h1]
  have h2 : (⌈((1 : ℚ) * ((2000000 : Int) : ℚ))⌉ : Int) = 2000000 := by
    norm_num [Int.ceil_eq_iff]
  simp only [h2]
  norm_num [Int.ceil_eq_iff]

/-- C4: every filesystem state observable during a save — before the
call, with the temp file partially or fully written, and after the
rename — shows a canonical file that is either the old content or the
fully written new document; the trace ends with the new document on the
canonical path. A crash between the temp write and the rename therefore
leaves the canonical file exactly as it was. -/
theorem save_atomic (doc old : State) (fs : FS) (h : fs.canonical = some (.valid old)) :
    (∀ f ∈ saveTrace doc fs,
        f.canonical = some (.valid old) ∨ f.canonical = some (.valid doc))
    ∧ (saveTrace doc fs).getLast? = some { canonical := some (.valid doc), tmp := none } := by
  refine ⟨?_, rfl⟩
  intro f hf
  simp only [saveTrace, List.mem_cons, List.not_mem_nil, or_false] at hf
  rcases hf with rfl | rfl | rfl | rfl
  · exact Or.inl h
  · exact Or.inl h
  · exact Or.inl h
  · exact Or.inr rfl

/-- C4 witness: during a save of the cleared document over a canonical
file holding the default document, the state with a half-written temp
file still shows the old, valid canonical content. -/
theorem save_atomic_witness :
    (FS.mk (some (.valid defaultState)) (some .partialData)).canonical
        = some (.valid defaultState)
    ∨ (FS.mk (some (.valid defaultState)) (some .partialData)).canonical
        = some (.valid (clearMembers defaultState)) :=
  (save_atomic (clearMembers defaultState) defaultState
      ⟨some (.valid defaultState), none⟩ rfl).1
    ⟨some (.valid defaultState), some .partialData⟩ (by simp [saveTrace])

/-- C8: an absent and an unparsable persisted file both make load return
the default document after durably writing it, and that default is
S=600, p=1/2, c=9/200, H=150, nextId=4 with the three seed members with
ids 1-3. loadState is a total function: no branch raises. -/
theorem load_default :
    loadState .absent = (defaultState, .valid defaultState)
    ∧ loadState .unparsable = (defaultState, .valid defaultState)
    ∧ defaultState.S = some (.num 600) ∧ defaultState.p = some (.num (1/2))
    ∧ defaultState.c = some (.num (9/200)) ∧ defaultState.H = some (.num 150)
    ∧ defaultState.nextId = some 4
    ∧ defaultState.members = [⟨1, "张三", 5⟩, ⟨2, "李四", 8⟩, ⟨3, "王五", 10⟩] :=
  ⟨rfl, rfl, rfl, rfl, rfl, rfl, rfl, rfl⟩

/-- C9: Clear empties the member list and leaves every other field — the
four parameters and nextId — unchanged. -/
theorem clear_frame (s : State) :
    (clearMembers s).members = [] ∧ (clearMembers s).S = s.S ∧ (clearMembers s).p = s.p
    ∧ (clearMembers s).c = s.c ∧ (clearMembers s).H = s.H
    ∧ (clearMembers s).nextId = s.nextId :=
  ⟨rfl, rfl, rfl, rfl, rfl, rfl⟩

lemma coerce_abc (d : ℚ) : coerceParam (some (.str "abc")) d = none := by
  have h1 : pyFloat? (.str "abc") = none := by decide
  have h2 : falsy (.str "abc") = false := by decide
  simp [coerceParam, h2, h1]

lemma computeResponse_none_of_bad_c (st : State)
    (h : coerceParam st.c (1/1000000) = none) : computeResponse st = none := by
  rw [one_div] at h
  rcases h1 : coerceParam st.S 0 with _ | S <;>
    rcases h2 : coerceParam st.p 0 with _ | p <;>
      rcases h4 : coerceParam st.H 1 with _ | H <;>
        simp [computeResponse, h, h1, h2, h4]

/-- C10 counterexample: POST /api/state with c = "abc" persists the
string verbatim, but the request does not respond successfully — the
handler saves and then raises inside the compute, so no response is
produced (contradicting the claim that the update responds
successfully). -/
theorem param_update_no_response_cex :
    ((postStateHandler defaultState none none (some (.str "abc")) none).1).c
        = some (.str "abc")
    ∧ (postStateHandler defaultState none none (some (.str "abc")) none).2 = none :=
  ⟨rfl, computeResponse_none_of_bad_c _ (coerce_abc _)⟩

/-- C10 amended: the parameter-update endpoint stores any supplied value
without validation; storing the non-numeric string "abc" as c persists
it, the storing request itself yields no successful response (compute
raises after the save), and every subsequent compute over the persisted
document fails until the parameter is overwritten — compute is not total
over the documents this endpoint can produce. -/
theorem param_update_unchecked (s : State) :
    ((postStateHandler s none none (some (.str "abc")) none).1).c = some (.str "abc")
    ∧ (postStateHandler s none none (some (.str "abc")) none).2 = none
    ∧ computeResponse ((postStateHandler s none none (some (.str "abc")) none).1) = none := by
  have hnone : computeResponse ((postStateHandler s none none (some (.str "abc")) none).1)
      = none := computeResponse_none_of_bad_c _ (coerce_abc _)
  exact ⟨rfl, hnone, hnone⟩

end Server

namespace Server

lemma updateFirst_notFound (ms : List Member) (mid : Int) (n? : Option String)
    (h? : Option HoursVal) (habs : ∀ m ∈ ms, m.id ≠ mid) :
    updateFirst ms mid n? h? = .error .notFound := by
  induction ms with
  | nil => rfl
  | cons x xs ih =>
      have hx : x.id ≠ mid := habs x (List.mem_cons_self x xs)
      have ih' := ih (fun m hm => habs m (List.mem_cons_of_mem x hm))
      simp [updateFirst, hx, ih', Except.map]

/-- C7: an update or a delete naming a member id that is not present
returns not-found, and the persisted document is unchanged — no member,
parameter or nextId is modified by the failed request. -/
theorem unknown_id_not_found (s : State) (mid : Int) (n? : Option String)
    (h? : Option HoursVal) (habs : ∀ m ∈ s.members, m.id ≠ mid) :
    membersPut s mid n? h? = .error .notFound
    ∧ deleteMember s mid = .error .notFound
    ∧ persistAfter s (membersPut s mid n? h?) = s
    ∧ persistAfter s (deleteMember s mid) = s := by
  have h1 : membersPut s mid n? h? = .error .notFound := by
    simp [membersPut, updateFirst_notFound s.members mid n? h? habs]
  have hf : s.members.filter (fun m => m.id ≠ mid) = s.members := by
    rw [List.filter_eq_self]
    intro a ha
    simpa using habs a ha
  have h2 : deleteMember s mid = .error .notFound := by
    simp only [deleteMember, hf]
    simp
  exact ⟨h1, h2, by rw [h1]; rfl, by rw [h2]; rfl⟩

/-- C7 witness: updating or deleting id 99 in the default document is
not-found and persists nothing. -/
theorem unknown_id_not_found_witness :
    membersPut defaultState 99 none none = .error .notFound
    ∧ deleteMember defaultState 99 = .error .notFound
    ∧ persistAfter defaultState (membersPut defaultState 99 none none) = defaultState
    ∧ persistAfter defaultState (deleteMember defaultState 99) = defaultState :=
  unknown_id_not_found defaultState 99 none none (by decide)

lemma updateFirst_badRequest (pre post : List Member) (m : Member) (mid : Int)
    (n? : Option String) (hid : m.id = mid) (hpre : ∀ m' ∈ pre, m'.id ≠ mid)
    (hv : HoursVal) (hcl : clampHours hv = none) :
    updateFirst (pre ++ m :: post) mid n? (some hv) = .error .badRequest := by
  induction pre with
  | nil => simp [updateFirst, hid, hcl]
  | cons x xs ih =>
      have hx : x.id ≠ mid := hpre x (List.mem_cons_self x xs)
      have ih' := ih (fun m' hm' => hpre m' (List.mem_cons_of_mem x hm'))
      simp [updateFirst, hx, ih', Except.map]

lemma updateFirst_clamped (pre post : List Member) (m : Member) (mid : Int)
    (hid : m.id = mid) (hpre : ∀ m' ∈ pre, m'.id ≠ mid)
    (hv : HoursVal) (q : ℚ) (hcl : clampHours hv = some q) :
    updateFirst (pre ++ m :: post) mid none (some hv)
      = .ok (pre ++ { m with hours := q } :: post) := by
  induction pre with
  | nil => simp [updateFirst, hid, hcl]
  | cons x xs ih =>
      have hx : x.id ≠ mid := hpre x (List.mem_cons_self x xs)
      have ih' := ih (fun m' hm' => hpre m' (List.mem_cons_of_mem x hm'))
      simp [updateFirst, hx, ih', Except.map]

/-- C6 counterexample: on the strict endpoint (explicit member update),
hours = -5 is not rejected: the update succeeds and the member's hours
is coerced to 0, exactly as on the coercing endpoints. -/
theorem strict_hours_coerced_cex :
    membersPut ⟨none, none, none, none, some 2, [⟨1, "a", 3⟩]⟩ 1 none (some (.finite (-5)))
      = .ok ⟨none, none, none, none, some 2, [⟨1, "a", 0⟩]⟩
    ∧ membersPut ⟨none, none, none, none, some 2, [⟨1, "a", 3⟩]⟩ 1 none (some (.finite (-5)))
      ≠ .error .badRequest := by
  have h1 : membersPut ⟨none, none, none, none, some 2, [⟨1, "a", 3⟩]⟩ 1 none
      (some (.finite (-5))) = .ok ⟨none, none, none, none, some 2, [⟨1, "a", 0⟩]⟩ := rfl
  exact ⟨h1, by rw [h1]; exact fun h => Except.noConfusion h⟩

/-- C6 amended: on every hours-accepting endpoint — the coercing ones
(add, submit-and-add) and the strict one (explicit update) alike — input
not convertible to a number is rejected with a validation error, while
convertible inputs of -5, a non-finite value, and 20000000 are coerced
to 0, 0 and 10000000 respectively; the strict endpoint coerces them the
same way instead of rejecting them. -/
theorem hours_validation (s : State) (raw : String) (mid : Int) (n? : Option String)
    (pre post : List Member) (m : Member)
    (hsplit : s.members = pre ++ m :: post) (hid : m.id = mid)
    (hpre : ∀ m' ∈ pre, m'.id ≠ mid) :
    membersPost s raw .notConvertible = .error .badRequest
    ∧ submitAndAdd s raw .notConvertible = .error .badRequest
    ∧ membersPut s mid n? (some .notConvertible) = .error .badRequest
    ∧ clampHours (.finite (-5)) = some 0
    ∧ clampHours .nonFinite = some 0
    ∧ clampHours (.finite 20000000) = some 10000000
    ∧ membersPut s mid none (some (.finite (-5)))
        = .ok { s with members := pre ++ { m with hours := 0 } :: post }
    ∧ membersPut s mid none (some .nonFinite)
        = .ok { s with members := pre ++ { m with hours := 0 } :: post }
    ∧ membersPut s mid none (some (.finite 20000000))
        = .ok { s with members := pre ++ { m with hours := 10000000 } :: post } := by
  have c1 : clampHours (.finite (-5)) = some 0 := by norm_num [clampHours]
  have c2 : clampHours .nonFinite = some 0 := by norm_num [clampHours]
  have c3 : clampHours (.finite 20000000) = some 10000000 := by norm_num [clampHours]
  have hbr := updateFirst_badRequest pre post m mid n? hid hpre HoursVal.notConvertible rfl
  have hc1 := updateFirst_clamped pre post m mid hid hpre (.finite (-5)) 0 c1
  have hc2 := updateFirst_clamped pre post m mid hid hpre .nonFinite 0 c2
  have hc3 := updateFirst_clamped pre post m mid hid hpre (.finite 20000000) 10000000 c3
  exact ⟨rfl, rfl, by simp [membersPut, hsplit, hbr], c1, c2, c3,
    by simp [membersPut, hsplit, hc1], by simp [membersPut, hsplit, hc2],
    by simp [membersPut, hsplit, hc3]⟩

/-- C6 witness: rejecting unconvertible input and coercing -5 to 0 on a
concrete one-member document. -/
theorem hours_validation_witness :
    membersPut ⟨none, none, none, none, some 2, [⟨1, "b", 3⟩]⟩ 1 none (some .notConvertible)
      = .error .badRequest
    ∧ membersPut ⟨none, none, none, none, some 2, [⟨1, "b", 3⟩]⟩ 1 none (some (.finite (-5)))
      = .ok ⟨none, none, none, none, some 2, [⟨1, "b", 0⟩]⟩ := by
  have h := hours_validation ⟨none, none, none, none, some 2, [⟨1, "b", 3⟩]⟩ "x" 1 none
      [] [] ⟨1, "b", 3⟩ rfl rfl (fun m' hm' => absurd hm' (List.not_mem_nil m'))
  exact ⟨h.2.2.1, h.2.2.2.2.2.2.1⟩

lemma upsertHours_found (pre post : List Member) (m : Member) (name : String) (q : ℚ)
    (hnm : pyStrip m.name = name) (hne : name ≠ "")
    (hpre : ∀ m' ∈ pre, pyStrip m'.name ≠ name) :
    upsertHours (pre ++ m :: post) name q = some (pre ++ { m with hours := q } :: post, m.id) := by
  induction pre with
  | nil => simp [upsertHours, hnm, hne]
  | cons x xs ih =>
      have hx : ¬ (pyStrip x.name = name ∧ name ≠ "") :=
        fun hc => (hpre x (List.mem_cons_self x xs)) hc.1
      have ih' := ih (fun m' hm' => hpre m' (List.mem_cons_of_mem x hm'))
      simp [upsertHours, hx, ih']

lemma upsertHours_none (ms : List Member) (name : String) (q : ℚ)
    (h : name = "" ∨ ∀ m' ∈ ms, pyStrip m'.name ≠ name) :
    upsertHours ms name q = none := by
  induction ms with
  | nil => rfl
  | cons x xs ih =>
      have hx : ¬ (pyStrip x.name = name ∧ name ≠ "") := by
        rcases h with h | h
        · exact fun hc => hc.2 h
        · exact fun hc => h x (List.mem_cons_self x xs) hc.1
      have ih' : upsertHours xs name q = none := by
        apply ih
        rcases h with h | h
        · exact Or.inl h
        · exact Or.inr (fun m' hm' => h m' (List.mem_cons_of_mem x hm'))
      simp [upsertHours, hx, ih']

/-- C5 counterexample: a submit-and-add whose trimmed name is empty does
not overwrite the existing member whose trimmed name is also empty (the
match requires a nonempty name): it appends a fresh placeholder member
and leaves the existing member's hours at 3. -/
theorem upsert_empty_name_cex :
    submitAndAdd ⟨none, none, none, none, some 2, [⟨1, "", 3⟩]⟩ "" (.finite 7)
      = .ok (⟨none, none, none, none, some 3, [⟨1, "", 3⟩, ⟨2, "成员2", 7⟩]⟩, 2)
    ∧ submitAndAdd ⟨none, none, none, none, some 2, [⟨1, "", 3⟩]⟩ "" (.finite 7)
      ≠ .ok (⟨none, none, none, none, some 2, [⟨1, "", 7⟩]⟩, 1) := by
  have h1 : submitAndAdd ⟨none, none, none, none, some 2, [⟨1, "", 3⟩]⟩ "" (.finite 7)
      = .ok (⟨none, none, none, none, some 3, [⟨1, "", 3⟩, ⟨2, "成员2", 7⟩]⟩, 2) := rfl
  refine ⟨h1, ?_⟩
  rw [h1]
  simp

/-- C5 amended: a submit-and-add whose cleaned name is nonempty and
matches the stripped name of an existing member (the first such member)
overwrites only that member's hours in place — id, name and list order
preserved; when the cleaned name is empty or matches no member, the
operation behaves exactly like Add on the cleaned name. -/
theorem upsert_by_name (s : State) (raw : String) (hv : HoursVal) (q : ℚ)
    (hq : clampHours hv = some q) :
    (∀ pre m post, s.members = pre ++ m :: post → pyStrip m.name = cleanName raw →
        cleanName raw ≠ "" → (∀ m' ∈ pre, pyStrip m'.name ≠ cleanName raw) →
        submitAndAdd s raw hv
          = .ok ({ s with members := pre ++ { m with hours := q } :: post }, m.id))
    ∧ ((cleanName raw = "" ∨ ∀ m' ∈ s.members, pyStrip m'.name ≠ cleanName raw) →
        submitAndAdd s raw hv = .ok (addMember s (cleanName raw) q)) := by
  constructor
  · intro pre m post hsplit hnm hne hpre
    simp [submitAndAdd, hq, hsplit, upsertHours_found pre post m _ q hnm hne hpre]
  · intro h
    simp [submitAndAdd, hq, upsertHours_none s.members (cleanName raw) q h]

/-- C5 witness: upserting hours 7 for the existing name alice keeps id 1
and the name, and overwrites only the hours. -/
theorem upsert_by_name_witness :
    submitAndAdd ⟨none, none, none, none, some 5, [⟨1, "alice", 3⟩]⟩ "alice" (.finite 7)
      = .ok (⟨none, none, none, none, some 5, [⟨1, "alice", 7⟩]⟩, 1) := by
  have h := (upsert_by_name ⟨none, none, none, none, some 5, [⟨1, "alice", 3⟩]⟩ "alice"
      (.finite 7) 7 rfl).1 [] ⟨1, "alice", 3⟩ [] rfl rfl
      (by decide) (fun m' hm' => absurd hm' (List.not_mem_nil m'))
  exact h

end Server

namespace Server

lemma le_foldl_max (ms : List Member) (a : Int) :
    a ≤ ms.foldl (fun acc m => max acc m.id) a := by
  induction ms generalizing a with
  | nil => exact le_refl a
  | cons x xs ih => exact le_trans (le_max_left a x.id) (ih (max a x.id))

lemma maxMemberId_nonneg (ms : List Member) : 0 ≤ maxMemberId ms :=
  le_foldl_max ms 0

lemma mem_le_foldl_max (ms : List Member) (m : Member) (a : Int) :
    m ∈ ms → m.id ≤ ms.foldl (fun acc m => max acc m.id) a := by
  induction ms generalizing a with
  | nil => intro hm; cases hm
  | cons x xs ih =>
      intro hm
      rcases List.mem_cons.mp hm with rfl | hm'
      · exact le_trans (le_max_right a m.id) (le_foldl_max xs _)
      · exact ih _ hm'

lemma mem_le_maxMemberId (ms : List Member) (m : Member) (hm : m ∈ ms) :
    m.id ≤ maxMemberId ms :=
  mem_le_foldl_max ms m 0 hm

lemma nodup_append_fresh (ms : List Member) (i : Int) (hi : maxMemberId ms < i)
    (h : (ms.map Member.id).Nodup) : ((ms.map Member.id) ++ [i]).Nodup := by
  refine List.Nodup.append h (List.nodup_singleton i) ?_
  intro a ha hb
  rw [List.mem_singleton] at hb
  subst hb
  rcases List.mem_map.mp ha with ⟨m, hm, rfl⟩
  exact absurd (mem_le_maxMemberId ms m hm) (by omega)

lemma ensureNextId_spec (s : State) :
    maxMemberId s.members < (ensureNextId s).1
    ∧ (ensureNextId s).2.nextId = some ((ensureNextId s).1 + 1)
    ∧ (ensureNextId s).2.members = s.members
    ∧ (∀ v, s.nextId = some v → v ≠ 0 → v ≤ (ensureNextId s).1) := by
  refine ⟨?_, rfl, rfl, ?_⟩
  · simp only [ensureNextId]
    rcases hn : s.nextId with _ | v <;> simp only [hn] <;> split_ifs <;> omega
  · intro v hv hne
    simp only [ensureNextId, hv]
    split_ifs <;> omega

lemma addMember_spec (s : State) (name : String) (q : ℚ) :
    maxMemberId s.members < (addMember s name q).2
    ∧ (addMember s name q).1.nextId = some ((addMember s name q).2 + 1)
    ∧ (addMember s name q).1.members.map Member.id
        = s.members.map Member.id ++ [(addMember s name q).2]
    ∧ (∀ v, s.nextId = some v → v ≠ 0 → v ≤ (addMember s name q).2) := by
  obtain ⟨h1, h2, h3, h4⟩ := ensureNextId_spec s
  refine ⟨h1, h2, ?_, h4⟩
  simp only [addMember, List.map_append, h3]
  rfl

end Server

namespace Server

lemma updateFirst_ids (ms : List Member) (mid : Int) (n? : Option String)
    (h? : Option HoursVal) :
    ∀ ms', updateFirst ms mid n? h? = .ok ms' → ms'.map Member.id = ms.map Member.id := by
  induction ms with
  | nil => intro ms' h; exact absurd h (by simp [updateFirst])
  | cons x xs ih =>
      intro ms' h
      by_cases hx : x.id = mid
      · rcases h? with _ | hv
        · rcases n? with _ | n <;>
            (simp only [updateFirst, if_pos hx] at h;
             rw [Except.ok.injEq] at h; subst h; simp)
        · rcases hcl : clampHours hv with _ | q
          · rcases n? with _ | n <;>
              (simp only [updateFirst, if_pos hx, hcl] at h; cases h)
          · rcases n? with _ | n <;>
              (simp only [updateFirst, if_pos hx, hcl] at h;
               rw [Except.ok.injEq] at h; subst h; simp)
      · simp only [updateFirst, if_neg hx] at h
        rcases hrec : updateFirst xs mid n? h? with e | ms'' <;> rw [hrec] at h
        · simp [Except.map] at h
        · simp only [Except.map, Except.ok.injEq] at h
          subst h
          simp [ih ms'' hrec]

lemma upsertHours_ids (ms : List Member) (name : String) (q : ℚ) :
    ∀ r, upsertHours ms name q = some r → r.1.map Member.id = ms.map Member.id := by
  induction ms with
  | nil => intro r h; cases h
  | cons x xs ih =>
      intro r h
      by_cases hx : pyStrip x.name = name ∧ name ≠ ""
      · rw [upsertHours, if_pos hx, Option.some.injEq] at h
        subst h
        simp
      · rw [upsertHours, if_neg hx] at h
        rcases hrec : upsertHours xs name q with _ | r' <;> rw [hrec] at h
        · cases h
        · obtain ⟨rest', mid⟩ := r'
          rw [Option.some.injEq] at h
          subst h
          simp [ih (rest', mid) hrec]

lemma nodup_delete (ms : List Member) (mid : Int)
    (h : (ms.map Member.id).Nodup) :
    ((ms.filter (fun m => m.id ≠ mid)).map Member.id).Nodup :=
  List.Nodup.sublist (List.Sublist.map Member.id (List.filter_sublist ms)) h

/-- Per-request characterization used by the id-freshness proof: either
the request issues no id and leaves nextId untouched, or it issues
exactly one id, strictly above the current maximum member id and at
least the stored (nonzero) counter, and stores that id plus one. In both
cases distinctness of member ids is preserved. -/
lemma applyOp_spec (s : State) (op : Op) :
    (((applyOp s op).2 = [] ∧ (applyOp s op).1.nextId = s.nextId)
      ∨ (∃ i, (applyOp s op).2 = [i] ∧ maxMemberId s.members < i
          ∧ (applyOp s op).1.nextId = some (i + 1)
          ∧ (∀ v, s.nextId = some v → v ≠ 0 → v ≤ i)))
    ∧ ((s.members.map Member.id).Nodup → ((applyOp s op).1.members.map Member.id).Nodup) := by
  cases op with
  | add raw hv =>
      rcases hcl : clampHours hv with _ | q
      · have he : applyOp s (.add raw hv) = (s, []) := by
          simp [applyOp, membersPost, hcl]
        rw [he]
        exact ⟨Or.inl ⟨rfl, rfl⟩, fun h => h⟩
      · obtain ⟨h1, h2, h3, h4⟩ := addMember_spec s (cleanName raw) q
        have he : applyOp s (.add raw hv)
            = ((addMember s (cleanName raw) q).1, [(addMember s (cleanName raw) q).2]) := by
          simp [applyOp, membersPost, hcl]
        rw [he]
        refine ⟨Or.inr ⟨(addMember s (cleanName raw) q).2, rfl, h1, h2, h4⟩, fun hnd => ?_⟩
        rw [h3]
        exact nodup_append_fresh s.members _ h1 hnd
  | upsert raw hv =>
      rcases hcl : clampHours hv with _ | q
      · have he : applyOp s (.upsert raw hv) = (s, []) := by
          simp [applyOp, hcl]
        rw [he]
        exact ⟨Or.inl ⟨rfl, rfl⟩, fun h => h⟩
      · rcases hup : upsertHours s.members (cleanName raw) q with _ | r
        · obtain ⟨h1, h2, h3, h4⟩ := addMember_spec s (cleanName raw) q
          have he : applyOp s (.upsert raw hv)
              = ((addMember s (cleanName raw) q).1, [(addMember s (cleanName raw) q).2]) := by
            simp [applyOp, hcl, hup]
          rw [he]
          refine ⟨Or.inr ⟨(addMember s (cleanName raw) q).2, rfl, h1, h2, h4⟩, fun hnd => ?_⟩
          rw [h3]
          exact nodup_append_fresh s.members _ h1 hnd
        · have he : applyOp s (.upsert raw hv) = ({ s with members := r.1 }, []) := by
            simp [applyOp, hcl, hup]
          rw [he]
          refine ⟨Or.inl ⟨rfl, rfl⟩, fun hnd => ?_⟩
          have := upsertHours_ids s.members (cleanName raw) q r hup
          simpa [this] using hnd
  | update mid n? h? =>
      rcases hput : membersPut s mid n? h? with e | s'
      · have he : applyOp s (.update mid n? h?) = (s, []) := by
          simp [applyOp, persistAfter, hput]
        rw [he]
        exact ⟨Or.inl ⟨rfl, rfl⟩, fun h => h⟩
      · obtain ⟨ms', hupd, rfl⟩ : ∃ ms', updateFirst s.members mid n? h? = .ok ms'
            ∧ s' = { s with members := ms' } := by
          rcases hu : updateFirst s.members mid n? h? with e | ms'
          · rw [membersPut, hu] at hput; cases hput
          · rw [membersPut, hu, Except.ok.injEq] at hput
            exact ⟨ms', rfl, hput.symm⟩
        have he : applyOp s (.update mid n? h?)
            = ({ s with members := ms' }, []) := by
          simp [applyOp, persistAfter, hput]
        rw [he]
        refine ⟨Or.inl ⟨rfl, rfl⟩, fun hnd => ?_⟩
        have := updateFirst_ids s.members mid n? h? ms' hupd
        simpa [this] using hnd
  | delete mid =>
      by_cases hlen : (s.members.filter (fun m => m.id ≠ mid)).length = s.members.length
      · have hdel : deleteMember s mid = .error .notFound := by
          simp only [deleteMember, if_pos hlen]
        have he : applyOp s (.delete mid) = (s, []) := by
          simp [applyOp, persistAfter, hdel]
        rw [he]
        exact ⟨Or.inl ⟨rfl, rfl⟩, fun h => h⟩
      · have hdel : deleteMember s mid
            = .ok { s with members := s.members.filter (fun m => m.id ≠ mid) } := by
          simp only [deleteMember, if_neg hlen]
        have he : applyOp s (.delete mid)
            = ({ s with members := s.members.filter (fun m => m.id ≠ mid) }, []) := by
          simp [applyOp, persistAfter, hdel]
        rw [he]
        exact ⟨Or.inl ⟨rfl, rfl⟩, fun hnd => nodup_delete s.members mid hnd⟩
  | clear =>
      exact ⟨Or.inl ⟨rfl, rfl⟩, fun _ => by simp [applyOp, clearMembers]⟩

end Server

namespace Server

lemma runOps_issued_lb (ops : List Op) : ∀ (s : State) (k : Int), 1 ≤ k →
    (∃ v, s.nextId = some v ∧ k < v) →
    ∀ x ∈ (runOps s ops).2, k < x.1 := by
  induction ops with
  | nil => intro s k hk hv x hx; simp [runOps] at hx
  | cons op rest ih =>
      intro s k hk hv x hx
      obtain ⟨v, hv1, hv2⟩ := hv
      obtain ⟨hcase, _⟩ := applyOp_spec s op
      simp only [runOps, List.mem_append] at hx
      rcases hcase with ⟨hids, hnext⟩ | ⟨i, hids, hmax, hnext, hbound⟩
      · rcases hx with hx | hx
        · rw [hids] at hx
          simp at hx
        · exact ih (applyOp s op).1 k hk ⟨v, by rw [hnext, hv1], hv2⟩ x hx
      · have hvne : v ≠ 0 := by omega
        have hvi : v ≤ i := hbound v hv1 hvne
        rcases hx with hx | hx
        · rw [hids] at hx
          simp only [List.map_cons, List.map_nil, List.mem_singleton] at hx
          subst hx
          exact lt_of_lt_of_le hv2 hvi
        · exact ih (applyOp s op).1 k hk ⟨i + 1, hnext, by omega⟩ x hx

/-- C3: running any request sequence from any starting document — also
one whose stored counter is at or below the current maximum member id —
issues ids (for adds and inserting upserts) that are strictly increasing
along the run, each strictly greater than the maximum member id present
when it was issued; and distinctness of member ids is preserved by every
run, so ids are never reused, including after deletes and clears. -/
theorem issued_ids_fresh (s : State) (ops : List Op) :
    (runOps s ops).2.Pairwise (fun a b => a.1 < b.1)
    ∧ (∀ x ∈ (runOps s ops).2, x.2 < x.1)
    ∧ ((s.members.map Member.id).Nodup →
        ((runOps s ops).1.members.map Member.id).Nodup) := by
  induction ops generalizing s with
  | nil => exact ⟨by simp [runOps], by simp [runOps], fun h => h⟩
  | cons op rest ih =>
      obtain ⟨ihp, ihm, ihd⟩ := ih (applyOp s op).1
      obtain ⟨hcase, hnodup⟩ := applyOp_spec s op
      have hrun2 : (runOps s (op :: rest)).2
          = (applyOp s op).2.map (fun i => (i, maxMemberId s.members))
            ++ (runOps (applyOp s op).1 rest).2 := rfl
      have hrun1 : (runOps s (op :: rest)).1 = (runOps (applyOp s op).1 rest).1 := rfl
      rcases hcase with ⟨hids, hnext⟩ | ⟨i, hids, hmax, hnext, hbound⟩
      · refine ⟨?_, ?_, ?_⟩
        · rw [hrun2, hids]
          simpa using ihp
        · rw [hrun2, hids]
          simpa using ihm
        · intro hnd
          rw [hrun1]
          exact ihd (hnodup hnd)
      · have hi1 : 1 ≤ i := by
          have := maxMemberId_nonneg s.members
          omega
        refine ⟨?_, ?_, ?_⟩
        · rw [hrun2, hids]
          simp only [List.map_cons, List.map_nil, List.singleton_append]
          refine List.Pairwise.cons ?_ ihp
          intro b hb
          exact runOps_issued_lb rest (applyOp s op).1 i hi1 ⟨i + 1, hnext, by omega⟩ b hb
        · rw [hrun2, hids]
          intro x hx
          simp only [List.map_cons, List.map_nil, List.singleton_append, List.mem_cons] at hx
          rcases hx with rfl | hx
          · exact hmax
          · exact ihm x hx
        · intro hnd
          rw [hrun1]
          exact ihd (hnodup hnd)

/-- C3 witness: after deleting a member, clearing, and adding, the ids
in the default document's run stay distinct. -/
theorem issued_ids_fresh_witness :
    (((runOps defaultState
        [Op.delete 2, Op.clear, Op.add "x" (.finite 5)]).1).members.map Member.id).Nodup :=
  (issued_ids_fresh defaultState [Op.delete 2, Op.clear, Op.add "x" (.finite 5)]).2.2
    (by decide)

end Server
